import Mathlib

/-!
Verification of the sharding / coordination layer `FanoutCache`
(`src/diskcache/fanout.py`).

Modelling conventions.  Each shard-level call that the coordination layer
issues is driven by an oracle: a list describing the outcomes of the
successive attempts of that call.  A retry loop (`while True: try ...
except Timeout: ...`) is a recursion that consumes the oracle; an exhausted
oracle models a run of attempts that the oracle does not describe (in
particular an infinite retry loop), and the embedding returns `none` there.
Python's `%` on integers with a positive modulus agrees with `Int.emod`,
which is Lean's `%` on `Int`.  Python exceptions that a method can surface
are part of the result type (`Except Unit` for `KeyError`); exceptions that
a method absorbs never appear in its result type.
-/

namespace Fanout

/-- Outcome of one attempt of a shard-level sweep call (`expire`, `evict`,
`clear`): a normal return carrying the count of items removed by that call, or
a `Timeout` whose payload (`timeout.args[0]` in `FanoutCache._remove`) carries
the count of items the attempt removed before the timeout. -/
inductive SweepOutcome : Type
  | ok (count : Nat)
  | timeout (progress : Nat)
  deriving DecidableEq

/-- Number of items actually removed by one sweep attempt: the normal return's
count, or the timeout's carried partial-progress count. -/
def SweepOutcome.removed : SweepOutcome → Nat
  | .ok n => n
  | .timeout k => k

/-- Total number of items removed by a sequence of sweep attempts. -/
def removedSum (l : List SweepOutcome) : Nat :=
  (l.map SweepOutcome.removed).sum

/-- Inner `while True` loop of `FanoutCache._remove` (fanout.py lines 303-311)
for one shard, driven by the oracle of that shard's successive sweep results:
`count = method(*args); total += count` on a normal return, breaking when
`count` is zero; `total += timeout.args[0]` on a `Timeout`, then retrying. -/
def shardRemove : Nat → List SweepOutcome → Option Nat
  | _, [] => none
  | total, .ok count :: rest =>
      if count = 0 then some (total + count)
      else shardRemove (total + count) rest
  | total, .timeout k :: rest => shardRemove (total + k) rest

/-- Outer loop of `FanoutCache._remove` (lines 300-312): visit the shards in
index order, threading the running `total` through each shard's inner loop. -/
def fanoutRemoveAux : Nat → List (List SweepOutcome) → Option Nat
  | total, [] => some total
  | total, oracle :: shards =>
      match shardRemove total oracle with
      | none => none
      | some t => fanoutRemoveAux t shards

/-- `FanoutCache._remove` (lines 299-312), the bulk sweep aggregator shared by
`expire`, `evict` and `clear`: `total = 0`, then the per-shard loops. -/
def fanoutRemove (shards : List (List SweepOutcome)) : Option Nat :=
  fanoutRemoveAux 0 shards

/-- Modelled from the spec (section 4.3, steps 1-3): the per-shard sweep total,
written from the spec's words.  On a bounded-wait failure add the carried
partial count and retry the same shard; on a normal nonzero return add the
count and repeat; stop, contributing nothing further, when a normal return
reports zero. -/
def specShardSweep : List SweepOutcome → Option Nat
  | [] => none
  | .ok n :: rest => if n = 0 then some 0 else (specShardSweep rest).map (n + ·)
  | .timeout k :: rest => (specShardSweep rest).map (k + ·)

/-- Modelled from the spec (section 4.3, step 4): shards are visited in index
order and the grand total is the sum of the independent per-shard totals. -/
def specFanoutSweep : List (List SweepOutcome) → Option Nat
  | [] => some 0
  | oracle :: shards =>
      match specShardSweep oracle, specFanoutSweep shards with
      | some a, some b => some (a + b)
      | _, _ => none

theorem shardRemove_shift (l : List SweepOutcome) :
    ∀ t : Nat, shardRemove t l = (shardRemove 0 l).map (t + ·) := by
  induction l with
  | nil => intro t; rfl
  | cons o rest ih =>
      intro t
      cases o with
      | ok n =>
          by_cases hn : n = 0
          · subst hn; simp [shardRemove]
          · simp only [shardRemove, if_neg hn]
            rw [ih (t + n), ih (0 + n)]
            cases shardRemove 0 rest
            · simp
            · simp; omega
      | timeout k =>
          simp only [shardRemove]
          rw [ih (t + k), ih (0 + k)]
          cases shardRemove 0 rest
          · simp
          · simp; omega

theorem specShardSweep_eq_shardRemove (l : List SweepOutcome) :
    specShardSweep l = shardRemove 0 l := by
  induction l with
  | nil => rfl
  | cons o rest ih =>
      cases o with
      | ok n =>
          by_cases hn : n = 0
          · subst hn; rfl
          · simp only [specShardSweep, shardRemove, if_neg hn, ih]
            rw [shardRemove_shift rest (0 + n)]
            cases shardRemove 0 rest <;> simp
      | timeout k =>
          simp only [specShardSweep, shardRemove, ih]
          rw [shardRemove_shift rest (0 + k)]
          cases shardRemove 0 rest <;> simp

theorem fanoutRemoveAux_eq_spec (shards : List (List SweepOutcome)) :
    ∀ t : Nat, fanoutRemoveAux t shards = (specFanoutSweep shards).map (t + ·) := by
  induction shards with
  | nil => intro t; simp [fanoutRemoveAux, specFanoutSweep]
  | cons oracle rest ih =>
      intro t
      simp only [fanoutRemoveAux, specFanoutSweep]
      rw [shardRemove_shift oracle t, ← specShardSweep_eq_shardRemove]
      cases h : specShardSweep oracle with
      | none => simp
      | some a =>
          simp only [Option.map_some']
          rw [ih (t + a)]
          cases h2 : specFanoutSweep rest with
          | none => simp
          | some b => simp [Nat.add_assoc]

theorem shardRemove_exact (l : List SweepOutcome) :
    ∀ t r : Nat, shardRemove t l = some r →
      ∃ consumed rest, consumed ++ rest = l ∧ r = t + removedSum consumed := by
  induction l with
  | nil => intro t r h; exact absurd h (by simp [shardRemove])
  | cons o tail ih =>
      intro t r h
      cases o with
      | ok n =>
          by_cases hn : n = 0
          · subst hn
            simp only [shardRemove, if_pos rfl, if_true, Option.some.injEq] at h
            exact ⟨[.ok 0], tail, rfl, by
              simp [removedSum, SweepOutcome.removed, ← h]⟩
          · simp only [shardRemove, if_neg hn] at h
            obtain ⟨c, rest, hcl, hr⟩ := ih (t + n) r h
            exact ⟨.ok n :: c, rest, by rw [← hcl]; rfl, by
              simp [removedSum, SweepOutcome.removed] at hr ⊢; omega⟩
      | timeout k =>
          simp only [shardRemove] at h
          obtain ⟨c, rest, hcl, hr⟩ := ih (t + k) r h
          exact ⟨.timeout k :: c, rest, by rw [← hcl]; rfl, by
            simp [removedSum, SweepOutcome.removed] at hr ⊢; omega⟩

theorem fanoutRemoveAux_exact (shards : List (List SweepOutcome)) :
    ∀ t total : Nat, fanoutRemoveAux t shards = some total →
      ∃ consumed : List (List SweepOutcome),
        List.Forall₂ (fun c o => ∃ rest, c ++ rest = o) consumed shards ∧
        total = t + (consumed.map removedSum).sum := by
  induction shards with
  | nil =>
      intro t total h
      simp only [fanoutRemoveAux, Option.some.injEq] at h
      exact ⟨[], List.Forall₂.nil, by simp [← h]⟩
  | cons oracle rest ih =>
      intro t total h
      simp only [fanoutRemoveAux] at h
      cases hs : shardRemove t oracle with
      | none => rw [hs] at h; exact absurd h (by simp)
      | some u =>
          rw [hs] at h
          obtain ⟨c, tailo, hco, hu⟩ := shardRemove_exact oracle t u hs
          obtain ⟨cs, hall, htot⟩ := ih u total h
          exact ⟨c :: cs, List.Forall₂.cons ⟨tailo, hco⟩ hall, by
            simp at htot ⊢; omega⟩

/-- C1.  The total returned by the bulk sweep aggregator `_remove` (used by
`expire`, `evict`, `clear`) is exactly the number of items removed across all
shards: it is the sum, over the attempts actually performed on each shard, of
each attempt's removed count, where a timeout attempt contributes its carried
partial-progress payload.  In particular a shard whose sweep first times out
after removing `k` items and then succeeds removing `0` contributes exactly
`k` to the running total. -/
theorem bulk_sweep_exact :
    (∀ (shards : List (List SweepOutcome)) (total : Nat),
      fanoutRemove shards = some total →
        ∃ consumed : List (List SweepOutcome),
          List.Forall₂ (fun c o => ∃ rest, c ++ rest = o) consumed shards ∧
          total = (consumed.map removedSum).sum) ∧
    (∀ t k : Nat, shardRemove t [.timeout k, .ok 0] = some (t + k)) := by
  constructor
  · intro shards total h
    obtain ⟨c, hall, htot⟩ := fanoutRemoveAux_exact shards 0 total h
    exact ⟨c, hall, by omega⟩
  · intro t k; simp [shardRemove]

theorem bulk_sweep_exact_witness :
    (∃ consumed : List (List SweepOutcome),
      List.Forall₂ (fun c o => ∃ rest, c ++ rest = o) consumed
        [[.timeout 2, .ok 0]] ∧
      2 = (consumed.map removedSum).sum) ∧
    shardRemove 1 [.timeout 3, .ok 0] = some 4 :=
  ⟨bulk_sweep_exact.1 [[.timeout 2, .ok 0]] 2 rfl, bulk_sweep_exact.2 1 3⟩

/-- C2.  The bulk sweep aggregator `_remove`, which threads one running total
through the shards in index order — retrying a shard on a bounded-wait failure
while adding the carried partial count, repeating the shard on a nonzero
normal return, and advancing exactly on a zero normal return — computes the
same answer as the aggregation written directly from the spec's words: the sum
of the independent per-shard sweep totals, taken in shard-index order. -/
theorem bulk_sweep_refines_spec (shards : List (List SweepOutcome)) :
    fanoutRemove shards = specFanoutSweep shards := by
  rw [fanoutRemove, fanoutRemoveAux_eq_spec shards 0]
  cases h : specFanoutSweep shards <;> simp

/-- Outcome of one attempt of a shard-level call that either returns a value
or raises `Timeout` (shard `set`, `add`, `__contains__`, `reset`). -/
inductive CallOutcome (α : Type) : Type
  | ok (a : α)
  | timeout
  deriving DecidableEq

/-- Outcome of one attempt of the shard-level `get`: the key is present with
value `v`; the key is absent, in which case the shard call itself returns the
caller-supplied default; or the attempt raises `Timeout`. -/
inductive GetOutcome (α : Type) : Type
  | found (v : α)
  | absent
  | timeout
  deriving DecidableEq

/-- Outcome of one attempt of the shard-level `__delitem__`: a normal return,
a `Timeout`, or a `KeyError` (key absent). -/
inductive DelOutcome : Type
  | ok (b : Bool)
  | timeout
  | keyError
  deriving DecidableEq

/-- Retry loop of `FanoutCache.set` (fanout.py lines 57-64): return the
shard's answer; on `Timeout` retry when the flag is set, else return `False`. -/
def setLoop (retry : Bool) : List (CallOutcome Bool) → Option Bool
  | [] => none
  | .ok b :: _ => some b
  | .timeout :: rest => if retry then setLoop retry rest else some false

/-- Retry loop of `FanoutCache.__setitem__` (lines 77-81): always retry. -/
def setItemLoop : List (CallOutcome Bool) → Option Bool
  | [] => none
  | .ok b :: _ => some b
  | .timeout :: rest => setItemLoop rest

/-- Retry loop of `FanoutCache.add` (lines 108-115). -/
def addLoop (retry : Bool) : List (CallOutcome Bool) → Option Bool
  | [] => none
  | .ok b :: _ => some b
  | .timeout :: rest => if retry then addLoop retry rest else some false

/-- Retry loop of `FanoutCache.get` (lines 136-146).  The value-or-default
domain is `Option α`: `none` stands for the `ENOVAL` sentinel imported from
`.core`, `some v` for an actual value; `default` is the caller's default. -/
def getLoop {α : Type} (retry : Bool) (default : Option α) :
    List (GetOutcome α) → Option (Option α)
  | [] => none
  | .found v :: _ => some (some v)
  | .absent :: _ => some default
  | .timeout :: rest => if retry then getLoop retry default rest else some default

/-- Retry loop of `FanoutCache.delete` (lines 201-210): `Timeout` honours the
retry flag; `KeyError` is absorbed, returning `False`. -/
def deleteLoop (retry : Bool) : List DelOutcome → Option Bool
  | [] => none
  | .ok b :: _ => some b
  | .timeout :: rest => if retry then deleteLoop retry rest else some false
  | .keyError :: _ => some false

/-- Retry loop of `FanoutCache.__delitem__` (lines 223-227): always retry on
`Timeout`; `KeyError` propagates to the caller (`Except.error`). -/
def delItemLoop : List DelOutcome → Option (Except Unit Bool)
  | [] => none
  | .ok b :: _ => some (.ok b)
  | .timeout :: rest => delItemLoop rest
  | .keyError :: _ => some (.error ())

/-- The routing index `index = hash(key) % self._count` computed by every
single-key operation of `FanoutCache`; Python `%` on a positive modulus
agrees with `Int.emod`, Lean's `%` on `Int`. -/
def routeIndex (hashKey : Int) (count : Nat) : Int :=
  hashKey % (count : Int)

/-- `FanoutCache.set` (lines 38-64): route to the owning shard, then run the
retry loop against that shard's successive `set` outcomes. -/
def FanoutCache.set (hashKey : Int) (count : Nat)
    (shards : Nat → List (CallOutcome Bool)) (retry : Bool) : Option Bool :=
  setLoop retry (shards (routeIndex hashKey count).toNat)

/-- `FanoutCache.__setitem__` (lines 67-81). -/
def FanoutCache.setItem (hashKey : Int) (count : Nat)
    (shards : Nat → List (CallOutcome Bool)) : Option Bool :=
  setItemLoop (shards (routeIndex hashKey count).toNat)

/-- `FanoutCache.add` (lines 84-115). -/
def FanoutCache.add (hashKey : Int) (count : Nat)
    (shards : Nat → List (CallOutcome Bool)) (retry : Bool) : Option Bool :=
  addLoop retry (shards (routeIndex hashKey count).toNat)

/-- `FanoutCache.get` (lines 118-146). -/
def FanoutCache.get {α : Type} (hashKey : Int) (count : Nat)
    (shards : Nat → List (GetOutcome α)) (default : Option α) (retry : Bool) :
    Option (Option α) :=
  getLoop retry default (shards (routeIndex hashKey count).toNat)

/-- `FanoutCache.__getitem__` (lines 149-160): `self.get(key, default=ENOVAL)`
— the `retry` flag is left at its `False` default — then `KeyError` exactly on
the sentinel result. -/
def FanoutCache.getItem {α : Type} (hashKey : Int) (count : Nat)
    (shards : Nat → List (GetOutcome α)) : Option (Except Unit α) :=
  match FanoutCache.get hashKey count shards none false with
  | none => none
  | some none => some (.error ())
  | some (some v) => some (.ok v)

/-- `FanoutCache.read` (lines 163-174): `self.get(key, default=ENOVAL,
read=True, retry=True)`, then `KeyError` exactly on the sentinel result. -/
def FanoutCache.read {α : Type} (hashKey : Int) (count : Nat)
    (shards : Nat → List (GetOutcome α)) : Option (Except Unit α) :=
  match FanoutCache.get hashKey count shards none true with
  | none => none
  | some none => some (.error ())
  | some (some v) => some (.ok v)

/-- `FanoutCache.__contains__` (lines 177-185): one direct query of the owning
shard; the first attempt's outcome — `Timeout` included — is the result,
unmodified, and no later attempt is ever consulted. -/
def FanoutCache.contains (hashKey : Int) (count : Nat)
    (shards : Nat → List (CallOutcome Bool)) : Option (CallOutcome Bool) :=
  (shards (routeIndex hashKey count).toNat).head?

/-- `FanoutCache.delete` (lines 188-210). -/
def FanoutCache.delete (hashKey : Int) (count : Nat)
    (shards : Nat → List DelOutcome) (retry : Bool) : Option Bool :=
  deleteLoop retry (shards (routeIndex hashKey count).toNat)

/-- `FanoutCache.__delitem__` (lines 213-227). -/
def FanoutCache.delItem (hashKey : Int) (count : Nat)
    (shards : Nat → List DelOutcome) : Option (Except Unit Bool) :=
  delItemLoop (shards (routeIndex hashKey count).toNat)

/-- C3.  Every single-key operation of `FanoutCache` — `set`, `__setitem__`,
`add`, `get`, `__getitem__`, `read`, `__contains__`, `delete`, `__delitem__`
— targets the shard at index `hash(key) % N`: the computed index lies in
`[0, N)` whenever `N ≥ 1`, it is a deterministic function of the key's hash,
and each operation's result depends only on the oracle of the owning shard. -/
theorem route_owning_shard :
    (∀ (hashKey : Int) (count : Nat), 0 < count →
      0 ≤ routeIndex hashKey count ∧ routeIndex hashKey count < (count : Int)) ∧
    (∀ (h₁ h₂ : Int) (count : Nat), h₁ = h₂ →
      routeIndex h₁ count = routeIndex h₂ count) ∧
    (∀ (hashKey : Int) (count : Nat) (f g : Nat → List (CallOutcome Bool))
      (retry : Bool),
      f (routeIndex hashKey count).toNat = g (routeIndex hashKey count).toNat →
      FanoutCache.set hashKey count f retry = FanoutCache.set hashKey count g retry) ∧
    (∀ (hashKey : Int) (count : Nat) (f g : Nat → List (CallOutcome Bool)),
      f (routeIndex hashKey count).toNat = g (routeIndex hashKey count).toNat →
      FanoutCache.setItem hashKey count f = FanoutCache.setItem hashKey count g) ∧
    (∀ (hashKey : Int) (count : Nat) (f g : Nat → List (CallOutcome Bool))
      (retry : Bool),
      f (routeIndex hashKey count).toNat = g (routeIndex hashKey count).toNat →
      FanoutCache.add hashKey count f retry = FanoutCache.add hashKey count g retry) ∧
    (∀ (α : Type) (hashKey : Int) (count : Nat)
      (f g : Nat → List (GetOutcome α)) (d : Option α) (retry : Bool),
      f (routeIndex hashKey count).toNat = g (routeIndex hashKey count).toNat →
      FanoutCache.get hashKey count f d retry = FanoutCache.get hashKey count g d retry) ∧
    (∀ (α : Type) (hashKey : Int) (count : Nat) (f g : Nat → List (GetOutcome α)),
      f (routeIndex hashKey count).toNat = g (routeIndex hashKey count).toNat →
      FanoutCache.getItem hashKey count f = FanoutCache.getItem hashKey count g) ∧
    (∀ (α : Type) (hashKey : Int) (count : Nat) (f g : Nat → List (GetOutcome α)),
      f (routeIndex hashKey count).toNat = g (routeIndex hashKey count).toNat →
      FanoutCache.read hashKey count f = FanoutCache.read hashKey count g) ∧
    (∀ (hashKey : Int) (count : Nat) (f g : Nat → List (CallOutcome Bool)),
      f (routeIndex hashKey count).toNat = g (routeIndex hashKey count).toNat →
      FanoutCache.contains hashKey count f = FanoutCache.contains hashKey count g) ∧
    (∀ (hashKey : Int) (count : Nat) (f g : Nat → List DelOutcome) (retry : Bool),
      f (routeIndex hashKey count).toNat = g (routeIndex hashKey count).toNat →
      FanoutCache.delete hashKey count f retry = FanoutCache.delete hashKey count g retry) ∧
    (∀ (hashKey : Int) (count : Nat) (f g : Nat → List DelOutcome),
      f (routeIndex hashKey count).toNat = g (routeIndex hashKey count).toNat →
      FanoutCache.delItem hashKey count f = FanoutCache.delItem hashKey count g) := by
  refine ⟨?_, ?_, ?_, ?_, ?_, ?_, ?_, ?_, ?_, ?_, ?_⟩
  · intro hashKey count hc
    exact ⟨Int.emod_nonneg hashKey (by exact_mod_cast hc.ne'),
      Int.emod_lt_of_pos hashKey (by exact_mod_cast hc)⟩
  · intro h₁ h₂ count he; rw [he]
  · intro hashKey count f g retry hfg; unfold FanoutCache.set; rw [hfg]
  · intro hashKey count f g hfg; unfold FanoutCache.setItem; rw [hfg]
  · intro hashKey count f g retry hfg; unfold FanoutCache.add; rw [hfg]
  · intro α hashKey count f g d retry hfg; unfold FanoutCache.get; rw [hfg]
  · intro α hashKey count f g hfg
    unfold FanoutCache.getItem FanoutCache.get; rw [hfg]
  · intro α hashKey count f g hfg
    unfold FanoutCache.read FanoutCache.get; rw [hfg]
  · intro hashKey count f g hfg; unfold FanoutCache.contains; rw [hfg]
  · intro hashKey count f g retry hfg; unfold FanoutCache.delete; rw [hfg]
  · intro hashKey count f g hfg; unfold FanoutCache.delItem; rw [hfg]

theorem route_owning_shard_witness :
    (0 ≤ routeIndex (-7) 8 ∧ routeIndex (-7) 8 < ((8 : Nat) : Int)) ∧
    FanoutCache.set (-7) 8 (fun _ => [CallOutcome.ok true]) false =
      FanoutCache.set (-7) 8
        (fun i => if i = 1 then [CallOutcome.ok true] else []) false :=
  ⟨route_owning_shard.1 (-7) 8 (by decide),
   route_owning_shard.2.2.1 (-7) 8 _ _ false (by decide)⟩

/-- C4.  For the single-key operations carrying a `retry` flag (`set`, `add`,
`delete`, `get`), a bounded-wait timeout from the owning shard is handled as:
with `retry = false`, return the no-effect result at once without raising
(`False` for `set`/`add`/`delete`, the caller-supplied default for `get`);
with `retry = true`, re-issue the same shard call — consuming any finite run
of timeouts — until it returns normally (yielding that normal result) or, for
`delete`, until the shard raises the non-timeout `KeyError`. -/
theorem single_key_timeout_policy :
    (∀ rest : List (CallOutcome Bool),
      setLoop false (.timeout :: rest) = some false) ∧
    (∀ rest : List (CallOutcome Bool),
      addLoop false (.timeout :: rest) = some false) ∧
    (∀ rest : List DelOutcome,
      deleteLoop false (.timeout :: rest) = some false) ∧
    (∀ (α : Type) (d : Option α) (rest : List (GetOutcome α)),
      getLoop false d (.timeout :: rest) = some d) ∧
    (∀ rest : List (CallOutcome Bool),
      setLoop true (.timeout :: rest) = setLoop true rest) ∧
    (∀ rest : List (CallOutcome Bool),
      addLoop true (.timeout :: rest) = addLoop true rest) ∧
    (∀ rest : List DelOutcome,
      deleteLoop true (.timeout :: rest) = deleteLoop true rest) ∧
    (∀ (α : Type) (d : Option α) (rest : List (GetOutcome α)),
      getLoop true d (.timeout :: rest) = getLoop true d rest) ∧
    (∀ (n : Nat) (b : Bool),
      setLoop true (List.replicate n .timeout ++ [.ok b]) = some b) ∧
    (∀ (n : Nat) (b : Bool),
      addLoop true (List.replicate n .timeout ++ [.ok b]) = some b) ∧
    (∀ (n : Nat) (b : Bool),
      deleteLoop true (List.replicate n .timeout ++ [.ok b]) = some b) ∧
    (∀ n : Nat,
      deleteLoop true (List.replicate n .timeout ++ [.keyError]) = some false) ∧
    (∀ (α : Type) (n : Nat) (v : α) (d : Option α),
      getLoop true d (List.replicate n .timeout ++ [.found v]) = some (some v)) := by
  refine ⟨fun _ => rfl, fun _ => rfl, fun _ => rfl, fun _ _ _ => rfl,
    fun _ => rfl, fun _ => rfl, fun _ => rfl, fun _ _ _ => rfl,
    ?_, ?_, ?_, ?_, ?_⟩
  · intro n b
    induction n with
    | zero => rfl
    | succ n ih => simpa [List.replicate_succ, setLoop] using ih
  · intro n b
    induction n with
    | zero => rfl
    | succ n ih => simpa [List.replicate_succ, addLoop] using ih
  · intro n b
    induction n with
    | zero => rfl
    | succ n ih => simpa [List.replicate_succ, deleteLoop] using ih
  · intro n
    induction n with
    | zero => rfl
    | succ n ih => simpa [List.replicate_succ, deleteLoop] using ih
  · intro α n v d
    induction n with
    | zero => rfl
    | succ n ih => simpa [List.replicate_succ, getLoop] using ih

/-- C5.  Claimed: the bracket-style lookup `__getitem__` always retries on a
bounded-wait timeout and raises `KeyError` exactly when the key is absent.
The code disagrees: line 157 calls `self.get(key, default=ENOVAL)` without
`retry=True`, so a single timeout is converted into the sentinel and then
into `KeyError` even though the key is present.  At the failing input — the
owning shard times out once and would then return the stored value `5` —
`__getitem__` raises `KeyError`, while `read` (which does force
`retry=True`, line 171) returns the value on the very same oracle. -/
theorem getitem_timeout_raises_keyerror :
    FanoutCache.getItem 0 1 (fun _ => [GetOutcome.timeout, GetOutcome.found 5]) =
      some (Except.error ()) ∧
    FanoutCache.read 0 1 (fun _ => [GetOutcome.timeout, GetOutcome.found 5]) =
      some (Except.ok 5) :=
  ⟨rfl, rfl⟩

/-- One scheduled attempt of a shard-level sweep: how many matching items the
shard will process in this bounded batch at most, and whether the attempt ends
in a bounded-wait timeout (reported with the partial count) instead of a
normal return. -/
structure SweepStep where
  failTimeout : Bool
  batch : Nat
  deriving DecidableEq

/-- Modelled from the spec: the shard-level `expire` attempt (`Cache.expire`
lives in `.core`, outside this repository's sources).  Per the spec's sweep
contract (sections 3 and 6), one bounded-batch call removes up to a
shard-determined batch of matching items — here, items whose expiry time is
before the timestamp it was handed — and reports how many it removed; a
timeout attempt carries that same count as its partial-progress payload.
Returns the removed count and the shard's remaining items. -/
def shardExpireStep (now : Nat) (st : SweepStep) (items : List Nat) :
    Nat × List Nat :=
  let expired := items.filter fun x => decide (x < now)
  let kept := items.filter fun x => !decide (x < now)
  let removed := min st.batch expired.length
  (removed, kept ++ expired.drop removed)

/-- Inner loop of `FanoutCache._remove` instantiated at the spec-modelled
shard `expire`: a normal return adds the count and breaks on zero; a timeout
adds the carried partial count and retries the same shard with the same
timestamp. -/
def shardExpireLoop (now : Nat) : List SweepStep → Nat → List Nat →
    Option (Nat × List Nat)
  | [], _, _ => none
  | st :: sched, total, items =>
      let r := shardExpireStep now st items
      if st.failTimeout then shardExpireLoop now sched (total + r.1) r.2
      else if r.1 = 0 then some (total + r.1, r.2)
      else shardExpireLoop now sched (total + r.1) r.2

/-- Outer loop of `FanoutCache._remove` for `expire`: the same `now` is handed
to every shard's sweep call; returns the grand total and the final states. -/
def fanoutExpireAux (now : Nat) : Nat → List (List SweepStep × List Nat) →
    Option (Nat × List (List Nat))
  | total, [] => some (total, [])
  | total, shard :: shards =>
      match shardExpireLoop now shard.1 total shard.2 with
      | none => none
      | some (t, items') =>
          match fanoutExpireAux now t shards with
          | none => none
          | some (g, finals) => some (g, items' :: finals)

/-- `FanoutCache.expire` (lines 249-255): `self._remove('expire',
(time.time(),))` — the timestamp is captured once, before the shard loop, and
that single value is the `now` passed to every shard call. -/
def fanoutExpire (now : Nat) (shards : List (List SweepStep × List Nat)) :
    Option (Nat × List (List Nat)) :=
  fanoutExpireAux now 0 shards

theorem count_keep (now e : Nat) (he : now < e) (items : List Nat) :
    (items.filter fun x => !decide (x < now)).count e = items.count e := by
  induction items with
  | nil => rfl
  | cons a l ih =>
      by_cases ha : a < now
      · have hne : a ≠ e := by omega
        simp [List.filter_cons, ha, List.count_cons, hne, ih, Ne.symm hne]
      · simp [List.filter_cons, ha, List.count_cons, ih]

theorem notMem_expired (now e : Nat) (he : now < e) (items : List Nat) :
    e ∉ items.filter fun x => decide (x < now) := by
  intro hmem
  have := (List.mem_filter.mp hmem).2
  simp at this
  omega

theorem count_expireStep (now e : Nat) (he : now < e) (st : SweepStep)
    (items : List Nat) :
    (shardExpireStep now st items).2.count e = items.count e := by
  have hdrop :
      ((items.filter fun x => decide (x < now)).drop
        (min st.batch (items.filter fun x => decide (x < now)).length)).count e
        = 0 := by
    rw [List.count_eq_zero]
    intro hmem
    exact notMem_expired now e he items (List.drop_subset _ _ hmem)
  simp only [shardExpireStep, List.count_append]
  rw [count_keep now e he items, hdrop]
  omega

theorem shardExpireLoop_count (now e : Nat) (he : now < e) :
    ∀ (sched : List SweepStep) (total : Nat) (items : List Nat)
      (t : Nat) (items' : List Nat),
      shardExpireLoop now sched total items = some (t, items') →
      items'.count e = items.count e := by
  intro sched
  induction sched with
  | nil => intro total items t items' h; exact absurd h (by simp [shardExpireLoop])
  | cons st rest ih =>
      intro total items t items' h
      simp only [shardExpireLoop] at h
      have hstep := count_expireStep now e he st items
      by_cases hf : st.failTimeout
      · rw [if_pos hf] at h
        rw [ih _ _ _ _ h, hstep]
      · rw [if_neg hf] at h
        by_cases hz : (shardExpireStep now st items).1 = 0
        · rw [if_pos hz] at h
          simp only [Option.some.injEq, Prod.mk.injEq] at h
          rw [← h.2, hstep]
        · rw [if_neg hz] at h
          rw [ih _ _ _ _ h, hstep]

theorem forall₂_of_forall_bound {α β : Type} {R : Nat → α → β → Prop}
    {l₁ : List α} {l₂ : List β} (c : Nat)
    (h : ∀ e, c < e → List.Forall₂ (R e) l₁ l₂) :
    List.Forall₂ (fun a b => ∀ e, c < e → R e a b) l₁ l₂ := by
  rw [List.forall₂_iff_get]
  have h0 := List.forall₂_iff_get.mp (h (c + 1) (by omega))
  refine ⟨h0.1, fun i h₁ h₂ e he => ?_⟩
  exact (List.forall₂_iff_get.mp (h e he)).2 i h₁ h₂

theorem fanoutExpireAux_count (now e : Nat) (he : now < e) :
    ∀ (shards : List (List SweepStep × List Nat)) (total g : Nat)
      (finals : List (List Nat)),
      fanoutExpireAux now total shards = some (g, finals) →
      List.Forall₂ (fun sh fin => fin.count e = sh.2.count e) shards finals := by
  intro shards
  induction shards with
  | nil =>
      intro total g finals h
      simp only [fanoutExpireAux, Option.some.injEq, Prod.mk.injEq] at h
      rw [← h.2]
      exact List.Forall₂.nil
  | cons shard rest ih =>
      intro total g finals h
      simp only [fanoutExpireAux] at h
      cases h1 : shardExpireLoop now shard.1 total shard.2 with
      | none => rw [h1] at h; exact absurd h (by simp)
      | some ti =>
          rw [h1] at h
          obtain ⟨t, items'⟩ := ti
          dsimp only at h
          cases h2 : fanoutExpireAux now t rest with
          | none => rw [h2] at h; exact absurd h (by simp)
          | some gf =>
              rw [h2] at h
              obtain ⟨g', finals'⟩ := gf
              dsimp only at h
              simp only [Option.some.injEq, Prod.mk.injEq] at h
              rw [← h.2]
              exact List.Forall₂.cons
                (shardExpireLoop_count now e he shard.1 total shard.2 t items' h1)
                (ih t g' finals' h2)

/-- C6.  `expire` captures one timestamp before iterating the shards and hands
that same `now` to every shard's sweep call; consequently an item whose expiry
time is strictly after the call's start time is never removed by that call —
its multiplicity in its shard is unchanged from the initial state to the final
state, whatever batch sizes and however many intervening timeouts the shards
exhibit.  (Shard-level `expire` is modelled from the spec, `Cache.expire` not
being among the sources.) -/
theorem expire_single_timestamp (now : Nat)
    (shards : List (List SweepStep × List Nat)) (total : Nat)
    (finals : List (List Nat))
    (h : fanoutExpire now shards = some (total, finals)) :
    List.Forall₂
      (fun sh fin => ∀ e : Nat, now < e → fin.count e = sh.2.count e)
      shards finals :=
  forall₂_of_forall_bound now fun e he =>
    fanoutExpireAux_count now e he shards 0 total finals h

theorem expire_single_timestamp_witness :
    List.Forall₂
      (fun (sh : List SweepStep × List Nat) (fin : List Nat) =>
        ∀ e : Nat, 10 < e → fin.count e = sh.2.count e)
      [([⟨true, 1⟩, ⟨false, 5⟩, ⟨false, 5⟩], [3, 12, 4])] [[12]] :=
  expire_single_timestamp 10 [([⟨true, 1⟩, ⟨false, 5⟩, ⟨false, 5⟩], [3, 12, 4])]
    2 [[12]] (by decide)

/-- Retry loop of `FanoutCache.reset` for one shard (fanout.py lines 375-381):
`except Timeout: pass` re-issues the shard's settings call until one attempt
returns normally, whose result is kept. -/
def shardResetLoop {α : Type} : List (CallOutcome α) → Option α
  | [] => none
  | .ok v :: _ => some v
  | .timeout :: rest => shardResetLoop rest

/-- Shard loop of `FanoutCache.reset` (lines 374-382): `result` holds the most
recent shard's value (`none` models the variable being still unbound) and the
value left by the last shard is returned. -/
def fanoutResetAux {α : Type} : Option α → List (List (CallOutcome α)) → Option α
  | prev, [] => prev
  | _, oracle :: shards =>
      match shardResetLoop oracle with
      | none => none
      | some v => fanoutResetAux (some v) shards

/-- `FanoutCache.reset` (lines 355-382). -/
def fanoutReset {α : Type} (oracles : List (List (CallOutcome α))) : Option α :=
  fanoutResetAux none oracles

theorem fanoutResetAux_last {α : Type} :
    ∀ (oracles : List (List (CallOutcome α))) (prev : Option α)
      (h : oracles ≠ []),
      (∀ o ∈ oracles, (shardResetLoop o).isSome = true) →
      fanoutResetAux prev oracles = shardResetLoop (oracles.getLast h) := by
  intro oracles
  induction oracles with
  | nil => intro _ h _; exact absurd rfl h
  | cons o os ih =>
      intro prev _ hs
      obtain ⟨v, hv⟩ := Option.isSome_iff_exists.mp (hs o (List.mem_cons_self _ _))
      cases os with
      | nil => simp [fanoutResetAux, hv]
      | cons o' os' =>
          have htail := ih (some v) (by simp)
            fun x hx => hs x (List.mem_cons_of_mem o hx)
          have step : fanoutResetAux prev (o :: o' :: os') =
              fanoutResetAux (some v) (o' :: os') := by
            show (match shardResetLoop o with
                  | none => none
                  | some w => fanoutResetAux (some w) (o' :: os')) =
                fanoutResetAux (some v) (o' :: os')
            rw [hv]
          rw [step, htail, List.getLast_cons_cons]

/-- C7.  When the shard-level `__delitem__` raises `KeyError` — the key is
absent — `FanoutCache.delete` returns `False` and raises nothing, whichever
value the `retry` flag has and however many timeouts preceded the `KeyError`;
the bracket-style `__delitem__` instead always retries on `Timeout` and lets
the `KeyError` propagate to the caller. -/
theorem delete_absent_vs_delitem :
    (∀ (retry : Bool) (pre rest : List DelOutcome),
      (∀ o ∈ pre, o = DelOutcome.timeout) →
      deleteLoop retry (pre ++ DelOutcome.keyError :: rest) = some false) ∧
    (∀ pre rest : List DelOutcome,
      (∀ o ∈ pre, o = DelOutcome.timeout) →
      delItemLoop (pre ++ DelOutcome.keyError :: rest) =
        some (Except.error ())) ∧
    (∀ rest : List DelOutcome,
      delItemLoop (DelOutcome.timeout :: rest) = delItemLoop rest) := by
  refine ⟨?_, ?_, fun _ => rfl⟩
  · intro retry pre rest hpre
    induction pre with
    | nil => cases retry <;> rfl
    | cons o pre ih =>
        have ho := hpre o (List.mem_cons_self _ _)
        subst ho
        have := ih fun x hx => hpre x (List.mem_cons_of_mem _ hx)
        cases retry
        · rfl
        · simpa [deleteLoop] using this
  · intro pre rest hpre
    induction pre with
    | nil => rfl
    | cons o pre ih =>
        have ho := hpre o (List.mem_cons_self _ _)
        subst ho
        simpa [delItemLoop] using ih fun x hx => hpre x (List.mem_cons_of_mem _ hx)

theorem delete_absent_vs_delitem_witness :
    deleteLoop true [DelOutcome.timeout, DelOutcome.keyError] = some false ∧
    delItemLoop [DelOutcome.timeout, DelOutcome.keyError] =
      some (Except.error ()) :=
  ⟨delete_absent_vs_delitem.1 true [DelOutcome.timeout] [] (by decide),
   delete_absent_vs_delitem.2.1 [DelOutcome.timeout] [] (by decide)⟩

/-- C8.  `reset` visits the shards in index order; each shard's settings call
is retried past any finite run of timeouts (never surfacing a timeout) until
it succeeds, before the next shard is visited; and when every shard eventually
succeeds, the value returned is exactly the last shard's result, all earlier
shards' results being discarded. -/
theorem settings_broadcast_last (α : Type) :
    (∀ rest : List (CallOutcome α),
      shardResetLoop (.timeout :: rest) = shardResetLoop rest) ∧
    (∀ (oracles : List (List (CallOutcome α))) (h : oracles ≠ []),
      (∀ o ∈ oracles, (shardResetLoop o).isSome = true) →
      fanoutReset oracles = shardResetLoop (oracles.getLast h)) :=
  ⟨fun _ => rfl, fun oracles h hs => fanoutResetAux_last oracles none h hs⟩

theorem settings_broadcast_last_witness :
    fanoutReset [[CallOutcome.timeout, CallOutcome.ok 1], [CallOutcome.ok 2]] =
      shardResetLoop [CallOutcome.ok (2 : Nat)] :=
  (settings_broadcast_last Nat).2
    [[CallOutcome.timeout, CallOutcome.ok 1], [CallOutcome.ok 2]]
    (by decide) (by decide)

/-- C9.  The membership test `__contains__` issues a single, non-retried query
to the owning shard: whatever the first attempt's outcome is — a normal answer
or a `Timeout` — it is returned to the caller unmodified, and no later attempt
of the oracle is ever consulted; the operation has no retry flag. -/
theorem contains_no_retry
    (hashKey : Int) (count : Nat) (shards : Nat → List (CallOutcome Bool))
    (a : CallOutcome Bool) (rest : List (CallOutcome Bool))
    (h : shards (routeIndex hashKey count).toNat = a :: rest) :
    FanoutCache.contains hashKey count shards = some a := by
  unfold FanoutCache.contains
  rw [h]
  rfl

theorem contains_no_retry_witness :
    FanoutCache.contains 3 2 (fun _ => [CallOutcome.timeout, CallOutcome.ok true]) =
      some CallOutcome.timeout :=
  contains_no_retry 3 2 (fun _ => [CallOutcome.timeout, CallOutcome.ok true])
    CallOutcome.timeout [CallOutcome.ok true] rfl

/-- `FanoutCache.__getattr__` (lines 34-35): an attribute the facade does not
itself define is looked up on `self._shards[0]`.  A shard is modelled by its
attribute map. -/
def fanoutGetattr {A V : Type} (shards : List (A → V)) (name : A) : Option V :=
  shards.head?.map fun s => s name

/-- C10.  Attribute access falling through to `__getattr__` is delegated to
shard 0 only: on a nonempty shard set it returns exactly shard 0's attribute
value, and the result is wholly independent of every other shard. -/
theorem getattr_shard_zero :
    (∀ (A V : Type) (s0 : A → V) (rest : List (A → V)) (name : A),
      fanoutGetattr (s0 :: rest) name = some (s0 name)) ∧
    (∀ (A V : Type) (s0 : A → V) (rest rest' : List (A → V)) (name : A),
      fanoutGetattr (s0 :: rest) name = fanoutGetattr (s0 :: rest') name) :=
  ⟨fun _ _ _ _ _ => rfl, fun _ _ _ _ _ _ => rfl⟩

end Fanout
